import Mathlib

/-!
Shallow embedding of the cakelisp evaluator core (eriksvedang/cakelisp).

Definitions are translated from the sources present in the snapshot
(Main.cpp, Utilities.hpp, ModuleManager.hpp, the generator-helpers header,
HotReloadingCodeModifier.cake).  Components whose implementation files are
not part of the snapshot (the evaluator / reference-resolver translation
unit) are modelled from the specification; each such definition says so in
its doc comment.
-/

namespace Cakelisp

/-- Token kind, from the tokenizer interface (spec section 3). -/
inductive TokenType where
  | OpenParen
  | CloseParen
  | Symbol
  | String
  | Invalid
  deriving DecidableEq

/-- A lexed token with source provenance.  Field order follows the C struct as
used by the aggregate literal in Main.cpp:
`Token modulePsuedoInvocationName = {TokenType_Symbol, "<module>", filename, 1, 0, 1}`. -/
structure Token where
  type : TokenType
  contents : String
  source : String
  lineNumber : Nat
  columnStart : Nat
  columnEnd : Nat
  deriving DecidableEq

/-! ### SafeSnprinf (Utilities.hpp) -/

/-- Model of the value returned by C `snprintf` (C99 7.19.6.5): the number of
characters the complete formatted output would occupy, excluding the null
terminator, independent of the buffer size passed in. -/
def snprintfReturnValue (formatted : String) : Nat := formatted.length

/-- SafeSnprinf from Utilities.hpp: it calls snprintf and then executes
`buffer[_numPrinted] = '\0'` where `_numPrinted` is the value snprintf
returned.  This is the index of the explicit terminator write. -/
def safeSnprinfTerminatorIndex (formatted : String) : Nat :=
  snprintfReturnValue formatted

/-- Whether the explicit terminator write of SafeSnprinf falls inside a buffer
of `bufferSize` bytes (valid indices are `0 .. bufferSize - 1`). -/
def safeSnprinfWriteInBounds (bufferSize : Nat) (formatted : String) : Bool :=
  decide (safeSnprinfTerminatorIndex formatted < bufferSize)

/-! ### Diagnostic lines (Utilities.hpp, Main.cpp) -/

/-- Decimal digit characters of `n`, most significant first: a model of what
`printf`'s `%d` conversion emits for a non-negative value.  Fuel-based so that
it is structurally recursive (the fuel `n + 1` always suffices: each step
divides by 10). -/
def natDecimalCharsAux : Nat → Nat → List Char → List Char
  | 0, _, acc => acc
  | fuel + 1, n, acc =>
    let digit := Char.ofNat (48 + n % 10)
    if n < 10 then digit :: acc
    else natDecimalCharsAux fuel (n / 10) (digit :: acc)

/-- Decimal rendering of `n` as a character list (model of `%d`). -/
def natDecimalChars (n : Nat) : List Char :=
  natDecimalCharsAux (n + 1) n []

/-- Decimal rendering of `n` as a string (model of `%d`). -/
def natDecimalString (n : Nat) : String := String.mk (natDecimalChars n)

/-- The literal `error: ` keyword-plus-separator the diagnostic macros embed
in their format strings. -/
def errorKeyword : List Char := ['e', 'r', 'r', 'o', 'r', ':', ' ']

/-- The literal `note: ` keyword-plus-separator of the note macros. -/
def noteKeyword : List Char := ['n', 'o', 't', 'e', ':', ' ']

/-- ErrorAtToken / ErrorAtTokenf from Utilities.hpp: the single line written to
stderr by `fprintf(stderr, "%s:%d:%d: error: %s\n", token.source,
token.lineNumber, 1 + token.columnStart, message)`, without the trailing
newline.  The column is printed 1-based (`1 + columnStart`). -/
def errorAtTokenLine (token : Token) (message : String) : String :=
  String.mk (token.source.data ++ ':' ::
    (natDecimalChars token.lineNumber ++ ':' ::
      (natDecimalChars (1 + token.columnStart) ++ ':' :: ' ' ::
        (errorKeyword ++ message.data))))

/-- NoteAtToken / NoteAtTokenf from Utilities.hpp: same shape with `note`. -/
def noteAtTokenLine (token : Token) (message : String) : String :=
  String.mk (token.source.data ++ ':' ::
    (natDecimalChars token.lineNumber ++ ':' ::
      (natDecimalChars (1 + token.columnStart) ++ ':' :: ' ' ::
        (noteKeyword ++ message.data))))

/-- The tokenizer-error line printed by main (Main.cpp):
`printf("%s:%d: error: %s\n", filename, lineNumber, error)` — note there is no
column field. -/
def mainTokenizerErrorLine (filename : String) (lineNumber : Nat)
    (message : String) : String :=
  String.mk (filename.data ++ ':' ::
    (natDecimalChars lineNumber ++ ':' :: ' ' :: (errorKeyword ++ message.data)))

/-- Longest prefix of non-colon characters, with the rest: the deterministic
parse of the regex fragment `([^:]+):` (`[^:]+` cannot cross a colon). -/
def spanNonColon : List Char → List Char × List Char
  | [] => ([], [])
  | c :: rest =>
    if c = ':' then ([], c :: rest)
    else
      let r := spanNonColon rest
      (c :: r.1, r.2)

/-- Longest prefix of decimal digits, with the rest: the deterministic parse of
the regex fragment `(\d+):` (a shorter digit run would have to be followed by
a digit, never a colon). -/
def spanDigits : List Char → List Char × List Char
  | [] => ([], [])
  | c :: rest =>
    if c.isDigit then
      let r := spanDigits rest
      (c :: r.1, r.2)
    else ([], c :: rest)

/-- Drops an expected literal character sequence, returning the remainder, or
`none` on the first mismatch. -/
def dropLiteral : List Char → List Char → Option (List Char)
  | [], rest => some rest
  | _ :: _, [] => none
  | l :: ls, c :: cs => if c = l then dropLiteral ls cs else none

/-- Matches the alternation-plus-separator `(error|note): ` of the diagnostic
regex, returning the trailing message on success. -/
def stripSeverityKeyword (cs : List Char) : Option (List Char) :=
  match dropLiteral errorKeyword cs with
  | some rest => some rest
  | none => dropLiteral noteKeyword cs

/-- Decision procedure for the one-line diagnostic regex
`^([^:]+):(\d+):(\d+): (error|note): (.*)$` over a character list.  Each
quantified group has a unique viable extent (see the span helpers), so the
backtracking regex is equivalent to this straight-line parse; `.` does not
match a newline, hence the final check. -/
def matchesDiagnosticLineChars (cs : List Char) : Bool :=
  match spanNonColon cs with
  | ([], _) => false
  | (_ :: _, ':' :: afterFile) =>
    match spanDigits afterFile with
    | ([], _) => false
    | (_ :: _, ':' :: afterLine) =>
      match spanDigits afterLine with
      | ([], _) => false
      | (_ :: _, ':' :: ' ' :: afterCol) =>
        match stripSeverityKeyword afterCol with
        | some message => message.all fun c => c != '\n'
        | none => false
      | _ => false
    | _ => false
  | _ => false

/-- Whether a diagnostic line round-trips through the spec's one-line regex. -/
def matchesDiagnosticRegex (s : String) : Bool :=
  matchesDiagnosticLineChars s.data

/-! ### Output model (spec sections 3 and 4.2; generator-helpers header) -/

/-- A StringOutput fragment carries its string payload, a language-token
placeholder, or a splice marker pointing at a child GeneratorOutput.  Child
outputs are addressed by identifier rather than by pointer. -/
inductive StringOutputPayload where
  | text (contents : String)
  | langToken
  | splice (childId : Nat)
  deriving DecidableEq

/-- An ordered, modifier-tagged output fragment with a blame token.  Modifiers
are a bitmask (`StringOutMod_*` flags combined by bitwise union). -/
structure StringOutput where
  payload : StringOutputPayload
  modifiers : Nat
  blameToken : Option Token
  deriving DecidableEq

/-- Bitmask value of `StringOutMod_NewlineAfter` (the only modifier Main.cpp
mentions by name; concrete values of the other flags are irrelevant here). -/
def StringOutMod_NewlineAfter : Nat := 1

/-- Two ordered streams (source, header) of StringOutput fragments. -/
structure GeneratorOutput where
  source : List StringOutput
  header : List StringOutput
  deriving DecidableEq

/-- Modelled from the spec: `addSpliceOutput(output, spliceOutput, startToken)`
records a deferred insertion of the child into BOTH parent streams; only the
declaration and its contract comment ("Splice marker must be pushed to both
source and header to preserve ordering in case spliceOutput has both source
and header outputs") are in the snapshot.  The child GeneratorOutput is
referred to by `spliceOutputId`. -/
def addSpliceOutput (output : GeneratorOutput) (spliceOutputId : Nat)
    (startToken : Token) : GeneratorOutput :=
  { output with
    source := output.source ++
      [⟨StringOutputPayload.splice spliceOutputId, 0, some startToken⟩],
    header := output.header ++
      [⟨StringOutputPayload.splice spliceOutputId, 0, some startToken⟩] }

/-- Modelled from the spec: the writer flattens splices lazily at write time,
in stream order, replacing each splice marker by the corresponding child
stream (`children` maps a child identifier to the child's fragments for the
stream being flattened). -/
def flattenStream (children : Nat → List StringOutput) :
    List StringOutput → List StringOutput
  | [] => []
  | fragment :: rest =>
    match fragment.payload with
    | StringOutputPayload.splice childId =>
      children childId ++ flattenStream children rest
    | _ => fragment :: flattenStream children rest

/-! ### Environment data model (spec sections 3 and 4.3) -/

/-- Categories of ObjectDefinition. -/
inductive ObjectType where
  | Function
  | Variable
  | Macro
  | Generator
  | CompileTimeFunction
  deriving DecidableEq

/-- Modelled from the spec: a pending Reference record — the referring
definition, the token that named the symbol, and whether the surrounding
definition was required (the re-evaluation cursor is not needed by any claim
and is omitted). -/
structure Reference where
  fromDefinition : String
  blameToken : Option Token
  isRequired : Bool
  deriving DecidableEq

/-- A named, typed, evaluable source entity.  `isComptime`, `buildAttempted`
and `buildSucceeds` model the compile-time build bookkeeping of the resolver
pseudo-code (spec section 4.6): whether the definition needs a compile-time
build, whether a build was already attempted (failed builds still count as
"defined" for dedup), and the abstract outcome the external build collaborator
would report. -/
structure ObjectDefinition where
  name : Token
  type : ObjectType
  isRequired : Bool
  isComptime : Bool
  buildAttempted : Bool
  buildSucceeds : Bool
  output : Option GeneratorOutput
  deriving DecidableEq

/-- Evaluator scope (spec section 3). -/
inductive EvaluatorScope where
  | Module
  | Body
  | ExpressionList
  | None
  deriving DecidableEq

/-- Ephemeral per-invocation evaluation context (spec section 3).  The
`uniqueSymbolCounter` is the context-local counter the spec prescribes for
MakeContextUniqueSymbolName; the owning module and delimiter template are not
needed by any claim and are omitted. -/
structure EvaluatorContext where
  scope : EvaluatorScope
  definitionName : Token
  isRequired : Bool
  uniqueSymbolCounter : Nat
  deriving DecidableEq

/-- Process-wide environment state (spec section 4.3).  The macro/generator
procedure registries and owned token vectors are not needed by any claim and
are omitted; `comptimeVars` models the persistent compile-time variable store
used by `get-or-create-comptime-var` for the boolean flags the hot-reloading
hook keeps in it. -/
structure EvaluatorEnvironment where
  definitions : List (String × ObjectDefinition)
  references : List (String × List Reference)
  comptimeVars : List (String × Bool)
  unknownSymbolErrors : List String
  comptimeBuildErrors : List String
  deriving DecidableEq

/-- The zero-initialized environment of `EvaluatorEnvironment environment = {}`
in Main.cpp. -/
def emptyEnvironment : EvaluatorEnvironment := ⟨[], [], [], [], []⟩

/-- An empty GeneratorOutput, as allocated by `new GeneratorOutput`. -/
def emptyGeneratorOutput : GeneratorOutput := ⟨[], []⟩

/-- Whether `name` keys an entry of the definition table. -/
def isDefinedIn : List (String × ObjectDefinition) → String → Bool
  | [], _ => false
  | (n, _) :: rest, name => (n == name) || isDefinedIn rest name

/-- Whether `name` keys a definition whose `isRequired` flag is set. -/
def requiredIn : List (String × ObjectDefinition) → String → Bool
  | [], _ => false
  | (n, d) :: rest, name => ((n == name) && d.isRequired) || requiredIn rest name

/-- First definition stored under `name`, if any. -/
def lookupDefinition : List (String × ObjectDefinition) → String →
    Option ObjectDefinition
  | [], _ => none
  | (n, d) :: rest, name => if n == name then some d else lookupDefinition rest name

/-- Modelled from the spec: `addObjectDefinition` — a name collision without
redefine intent is an error and leaves the table unchanged; otherwise the
definition is appended (the table is insertion-stable). -/
def addObjectDefinition (env : EvaluatorEnvironment) (d : ObjectDefinition) :
    EvaluatorEnvironment :=
  if isDefinedIn env.definitions d.name.contents then env
  else { env with definitions := env.definitions ++ [(d.name.contents, d)] }

/-- Modelled from the spec: `addReference` — appends a Reference record under
its target name, keeping insertion order (new names are appended at the
back; references to a known name extend its FIFO list). -/
def addReferenceToRegistry (registry : List (String × List Reference))
    (name : String) (r : Reference) : List (String × List Reference) :=
  match registry with
  | [] => [(name, [r])]
  | (n, rs) :: rest =>
    if n == name then (n, rs ++ [r]) :: rest
    else (n, rs) :: addReferenceToRegistry rest name r

/-- The Reference the evaluator records when code evaluated under `context`
uses a yet-unknown symbol: blame and required-ness come from the context
(dispatch step 4, spec section 4.4). -/
def referenceFromContext (context : EvaluatorContext) (blameToken : Option Token) :
    Reference :=
  { fromDefinition := context.definitionName.contents
    blameToken := blameToken
    isRequired := context.isRequired }

/-! ### Reference resolver (spec section 4.6) -/

/-- Sets `isRequired |= required` on every definition stored under `name`
(the resolver's marking step). -/
def markRequired : List (String × ObjectDefinition) → String → Bool →
    List (String × ObjectDefinition)
  | [], _, _ => []
  | (n, d) :: rest, name, required =>
    if n == name then
      (n, { d with isRequired := d.isRequired || required }) ::
        markRequired rest name required
    else (n, d) :: markRequired rest name required

/-- Modelled from the spec: one sweep of the resolver's reference loop — for
each pending (name, refs) entry in insertion order, if the name is defined,
mark the definition required when any referring site was required and drop the
entry (progress); otherwise keep it.  Returns (remaining references, updated
definitions, progress). -/
def resolvePassGo : List (String × List Reference) →
    List (String × ObjectDefinition) →
    List (String × List Reference) × List (String × ObjectDefinition) × Bool
  | [], defs => ([], defs, false)
  | (name, refs) :: rest, defs =>
    if isDefinedIn defs name then
      let result := resolvePassGo rest
        (markRequired defs name (refs.any fun r => r.isRequired))
      (result.1, result.2.1, true)
    else
      let result := resolvePassGo rest defs
      ((name, refs) :: result.1, result.2.1, result.2.2)

/-- Modelled from the spec: the resolver's build sweep — every required
compile-time definition not yet built is built; success is progress, failure
records an error, and either way the definition counts as attempted so the
user sees exactly one error.  Returns (updated definitions, progress,
recorded build errors). -/
def buildSweep : List (String × ObjectDefinition) →
    List (String × ObjectDefinition) × Bool × List String
  | [] => ([], false, [])
  | (name, d) :: rest =>
    let result := buildSweep rest
    if d.isRequired && d.isComptime && !d.buildAttempted then
      ((name, { d with buildAttempted := true }) :: result.1,
       d.buildSucceeds || result.2.1,
       if d.buildSucceeds then result.2.2 else name :: result.2.2)
    else ((name, d) :: result.1, result.2.1, result.2.2)

/-- Modelled from the spec: one round of the resolver's `repeat` body —
the reference sweep followed by the build sweep.  Returns the updated
environment and whether any progress was made. -/
def resolvePass (env : EvaluatorEnvironment) : EvaluatorEnvironment × Bool :=
  let goResult := resolvePassGo env.references env.definitions
  let sweepResult := buildSweep goResult.2.1
  ({ env with
      references := goResult.1,
      definitions := sweepResult.1,
      comptimeBuildErrors := env.comptimeBuildErrors ++ sweepResult.2.2 },
   goResult.2.2 || sweepResult.2.1)

/-- Modelled from the spec: the resolver's `repeat ... until not progress`
loop, with explicit fuel (each round that makes progress removes a reference
entry or marks a build attempted, so rounds are bounded by the registry
sizes; the caller passes a sufficient bound). -/
def resolveLoopFuel : Nat → EvaluatorEnvironment → EvaluatorEnvironment
  | 0, env => env
  | fuel + 1, env =>
    let passResult := resolvePass env
    if passResult.2 then resolveLoopFuel fuel passResult.1 else passResult.1

/-- Whether any pending reference entry has a required referring site. -/
def anyRequiredReference : List (String × List Reference) → Bool
  | [] => false
  | (_, refs) :: rest => refs.any (fun r => r.isRequired) || anyRequiredReference rest

/-- Modelled from the spec: `EvaluateResolveReferences` — run the fixed-point
loop, then `if references non-empty and any required: report missing symbols`
(each leftover name becomes an UnknownSymbolError) and fail; otherwise
succeed.  Building is modelled as flipping `buildAttempted` with an abstract
success outcome; evaluation performed during builds (which could append new
references) is outside this model, matching the single-file driver in
Main.cpp. -/
def EvaluateResolveReferences (env : EvaluatorEnvironment) :
    EvaluatorEnvironment × Bool :=
  let envResolved :=
    resolveLoopFuel (env.references.length + env.definitions.length + 2) env
  if envResolved.references.isEmpty then (envResolved, true)
  else if anyRequiredReference envResolved.references then
    ({ envResolved with
        unknownSymbolErrors :=
          envResolved.unknownSymbolErrors ++ envResolved.references.map Prod.fst },
     false)
  else (envResolved, true)

/-! ### Redefinition machinery (spec section 4.7) -/

/-- Replaces the stored GeneratorOutput of every definition under `name`,
leaving key, order and every other field untouched. -/
def setDefinitionOutput : List (String × ObjectDefinition) → String →
    GeneratorOutput → List (String × ObjectDefinition)
  | [], _, _ => []
  | (n, d) :: rest, name, out =>
    if n == name then (n, { d with output := some out }) :: setDefinitionOutput rest name out
    else (n, d) :: setDefinitionOutput rest name out

/-- Modelled from the spec: `ReplaceAndEvaluateDefinition(env, name,
newTokens)` — look up the existing definition by name and fail when absent;
discard its GeneratorOutput but not its `definitions` entry; re-invoke the
evaluator on `newTokens` (abstracted as `evalFn`, producing the fresh output
and the references discovered during re-evaluation, which are re-queued). -/
def ReplaceAndEvaluateDefinition (env : EvaluatorEnvironment) (name : String)
    (newTokens : List Token)
    (evalFn : List Token → GeneratorOutput × List (String × Reference)) :
    Option EvaluatorEnvironment :=
  match lookupDefinition env.definitions name with
  | none => none
  | some _ =>
    some { env with
      definitions := setDefinitionOutput env.definitions name (evalFn newTokens).1,
      references := ((evalFn newTokens).2).foldl
        (fun registry p => addReferenceToRegistry registry p.1 p.2)
        env.references }

/-- The legal operations that mutate an environment: registering a definition
or reference during evaluation, running the resolver, and the sanctioned
redefinition path (hooks are sequences of these). -/
inductive EnvOp where
  | addDefinitionOp (d : ObjectDefinition)
  | addReferenceOp (name : String) (r : Reference)
  | resolveReferencesOp
  | replaceAndEvaluateOp (name : String) (newTokens : List Token)
      (evalFn : List Token → GeneratorOutput × List (String × Reference))

/-- Applies one legal operation (a failed redefinition leaves the environment
unchanged). -/
def applyOp (env : EvaluatorEnvironment) : EnvOp → EvaluatorEnvironment
  | EnvOp.addDefinitionOp d => addObjectDefinition env d
  | EnvOp.addReferenceOp name r =>
    { env with references := addReferenceToRegistry env.references name r }
  | EnvOp.resolveReferencesOp => (EvaluateResolveReferences env).1
  | EnvOp.replaceAndEvaluateOp name newTokens evalFn =>
    match ReplaceAndEvaluateDefinition env name newTokens evalFn with
    | some envNext => envNext
    | none => env

/-- Applies a sequence of legal operations in order. -/
def applyOps (env : EvaluatorEnvironment) (ops : List EnvOp) : EvaluatorEnvironment :=
  ops.foldl applyOp env

/-! ### Evaluator pass over sibling forms (spec sections 4.4 and 7) -/

/-- Error kinds that are recoverable within a pass (spec section 7). -/
inductive ErrorKind where
  | scopeError
  | illegalForm
  | arityError
  | typeError
  deriving DecidableEq

/-- Outcome of evaluating one top-level form. -/
inductive EvalOutcome where
  | success
  | recoverableError (kind : ErrorKind)
  | fatalEnvironmentError
  deriving DecidableEq

/-- Whether an outcome is a recoverable (blamed, counted) error. -/
def isRecoverableError : EvalOutcome → Bool
  | EvalOutcome.recoverableError _ => true
  | _ => false

/-- Modelled from the spec: the sibling loop of `EvaluateGenerateAll_Recursive`
over top-level forms.  Per-form dispatch (scope validation, generator/macro
lookup, arity checks) is abstracted as `evalOne`; on a recoverable error the
loop emits one blamed error (returned in the second component), increments the
error count and continues with the next sibling, while a
FatalEnvironmentError halts the pass at the current form. -/
def EvaluateGenerateAll_Recursive {α : Type} (evalOne : α → EvalOutcome) :
    List α → Nat × List α
  | [] => (0, [])
  | form :: rest =>
    match evalOne form with
    | EvalOutcome.success => EvaluateGenerateAll_Recursive evalOne rest
    | EvalOutcome.recoverableError _ =>
      ((EvaluateGenerateAll_Recursive evalOne rest).1 + 1,
       form :: (EvaluateGenerateAll_Recursive evalOne rest).2)
    | EvalOutcome.fatalEnvironmentError => (1, [form])

/-! ### Context-stable gensym (generator-helpers header, spec section 4.4) -/

/-- Modelled from the spec: a deterministic hash of a definition name (the
spec prescribes "hash of context.definitionName"; the concrete mixing
function is irrelevant, only that it reads the name characters alone). -/
def stringHash (s : String) : Nat :=
  s.data.foldl (fun h c => (h * 31 + c.toNat) % 4294967296) 5381

/-- Modelled from the spec: `MakeContextUniqueSymbolName(env, context, prefix,
outToken)` — stable as long as the context is managed properly: the produced
symbol is derived from the hash of `context.definitionName` and the
context-local counter, never from addresses.  Returns the generated token and
the advanced counter. -/
def MakeContextUniqueSymbolName (environment : EvaluatorEnvironment)
    (context : EvaluatorContext) (namePrefix : String) : Token × Nat :=
  (⟨TokenType.Symbol,
    namePrefix ++ "_" ++ natDecimalString (stringHash context.definitionName.contents)
      ++ "_" ++ natDecimalString context.uniqueSymbolCounter,
    context.definitionName.source, context.definitionName.lineNumber,
    context.definitionName.columnStart, context.definitionName.columnEnd⟩,
   context.uniqueSymbolCounter + 1)

/-! ### Hot-reloading code modifier (runtime/HotReloadingCodeModifier.cake) -/

/-- Looks up a persistent compile-time variable. -/
def lookupComptimeVar : List (String × Bool) → String → Option Bool
  | [], _ => none
  | (n, v) :: rest, name => if n == name then some v else lookupComptimeVar rest name

/-- Stores a persistent compile-time variable, overwriting an existing entry. -/
def setComptimeVar : List (String × Bool) → String → Bool → List (String × Bool)
  | [], name, v => [(name, v)]
  | (n, w) :: rest, name, v =>
    if n == name then (n, v) :: rest
    else (n, w) :: setComptimeVar rest name v

/-- Modelled from the spec (the `get-or-create-comptime-var` macro is imported
from Macros.cake, not in the snapshot): returns the current value of the
environment-persistent variable, creating it with the initial value when it
does not exist yet. -/
def getOrCreateComptimeVar (env : EvaluatorEnvironment) (name : String)
    (initialValue : Bool) : Bool × EvaluatorEnvironment :=
  match lookupComptimeVar env.comptimeVars name with
  | some v => (v, env)
  | none =>
    (initialValue, { env with comptimeVars := (name, initialValue) :: env.comptimeVars })

/-- The `make-code-hot-reloadable` hook from HotReloadingCodeModifier.cake:
`(get-or-create-comptime-var modified-vars bool false)` then
`(when (deref modified-vars) (return true))` — modify variables only once —
then `(set (deref modified-vars) true)` and the rewriting body.  The body
(collecting variables, pointerifying them, auto-dereferencing references,
emitting initializers) is abstracted as `rewriteBody`, which receives the
environment and the `was-code-modified` flag and returns the hook result, the
mutated environment and the updated flag. -/
def makeCodeHotReloadable
    (rewriteBody : EvaluatorEnvironment → Bool → Bool × EvaluatorEnvironment × Bool)
    (environment : EvaluatorEnvironment) (wasCodeModified : Bool) :
    Bool × EvaluatorEnvironment × Bool :=
  let varResult := getOrCreateComptimeVar environment "modified-vars" false
  if varResult.1 then (true, varResult.2, wasCodeModified)
  else
    rewriteBody
      { varResult.2 with
          comptimeVars := setComptimeVar varResult.2.comptimeVars "modified-vars" true }
      wasCodeModified

/-! ### Main driver setup (Main.cpp) -/

/-- The `<module>` pseudo-invocation token main builds:
`Token modulePsuedoInvocationName = {TokenType_Symbol, "<module>", filename, 1, 0, 1}`
(source spelling kept, including the typo). -/
def modulePsuedoInvocationName (filename : String) : Token :=
  ⟨TokenType.Symbol, "<module>", filename, 1, 0, 1⟩

/-- The module pseudo-definition main registers before evaluating any user
token: zero-initialized, then `name = &modulePsuedoInvocationName`,
`type = ObjectType_Function`, `isRequired = true`, and an allocated (empty)
GeneratorOutput. -/
def mainModuleDefinition (filename : String) : ObjectDefinition :=
  { name := modulePsuedoInvocationName filename
    type := ObjectType.Function
    isRequired := true
    isComptime := false
    buildAttempted := false
    buildSucceeds := false
    output := some emptyGeneratorOutput }

/-- The environment right after main's setup: a zero-initialized environment
(fundamental generators touch only the generator registry, which no claim
needs) into which the module pseudo-definition has been added. -/
def mainSetupEnvironment (filename : String) : EvaluatorEnvironment :=
  addObjectDefinition emptyEnvironment (mainModuleDefinition filename)

/-- The top-level context main evaluates every form under: zero-initialized,
then `scope = EvaluatorScope_Module`,
`definitionName = &modulePsuedoInvocationName`, `isRequired = true`. -/
def mainModuleContext (filename : String) : EvaluatorContext :=
  { scope := EvaluatorScope.Module
    definitionName := modulePsuedoInvocationName filename
    isRequired := true
    uniqueSymbolCounter := 0 }

/-! ### Concrete sample values used by witnesses -/

/-- A concrete token for witness environments. -/
def sampleToken : Token := ⟨TokenType.Symbol, "f", "test.cake", 1, 0, 1⟩

/-- A concrete unrequired function definition. -/
def sampleDefinition : ObjectDefinition :=
  ⟨sampleToken, ObjectType.Function, false, false, false, false, none⟩

/-- A concrete required function definition. -/
def sampleRequiredDefinition : ObjectDefinition :=
  ⟨sampleToken, ObjectType.Function, true, false, false, false, none⟩

/-- A concrete per-form outcome assignment: forms congruent to 0 mod 3
succeed, to 1 mod 3 fail recoverably, to 2 mod 3 fail fatally. -/
def sampleEvalOutcome (n : Nat) : EvalOutcome :=
  if n % 3 == 0 then EvalOutcome.success
  else if n % 3 == 1 then EvalOutcome.recoverableError ErrorKind.arityError
  else EvalOutcome.fatalEnvironmentError

/-! ## Theorems -/

/-- Flattening distributes over stream concatenation. -/
theorem flattenStream_append (children : Nat → List StringOutput)
    (a b : List StringOutput) :
    flattenStream children (a ++ b) =
      flattenStream children a ++ flattenStream children b := by
  induction a with
  | nil => simp [flattenStream]
  | cons f rest ih =>
    cases hp : f.payload <;>
      simp [flattenStream, hp, ih, List.append_assoc]

/-- C10: SafeSnprinf writes its explicit null terminator at the index snprintf
returns, which is the length of the full (untruncated) formatted output; with
a 4-byte buffer and 10 characters of formatted output the write lands at
index 10, outside the buffer.  The claim that the index is strictly less than
the buffer size even under truncation is therefore false of the code. -/
theorem SafeSnprinf_terminator_out_of_bounds :
    safeSnprinfTerminatorIndex "0123456789" = 10 ∧
    safeSnprinfWriteInBounds 4 "0123456789" = false := by
  constructor <;> rfl

/-- C6: addSpliceOutput appends a splice marker referring to the child to both
the parent's source stream and the parent's header stream, at the insertion
point; consequently flattening either stream yields all previously inserted
fragments followed by the child's contribution to that stream, preserving
global insertion order whichever stream the child contributes to. -/
theorem addSpliceOutput_marks_both_streams (output : GeneratorOutput)
    (spliceOutputId : Nat) (startToken : Token)
    (sourceChildren headerChildren : Nat → List StringOutput) :
    (addSpliceOutput output spliceOutputId startToken).source =
      output.source ++
        [⟨StringOutputPayload.splice spliceOutputId, 0, some startToken⟩] ∧
    (addSpliceOutput output spliceOutputId startToken).header =
      output.header ++
        [⟨StringOutputPayload.splice spliceOutputId, 0, some startToken⟩] ∧
    flattenStream sourceChildren (addSpliceOutput output spliceOutputId startToken).source =
      flattenStream sourceChildren output.source ++ sourceChildren spliceOutputId ∧
    flattenStream headerChildren (addSpliceOutput output spliceOutputId startToken).header =
      flattenStream headerChildren output.header ++ headerChildren spliceOutputId := by
  refine ⟨rfl, rfl, ?_, ?_⟩ <;>
    simp [addSpliceOutput, flattenStream_append, flattenStream]

/-- C7: the hot-reloading hook's own `modified-vars` flag makes it idempotent:
when the persistent compile-time variable is already true, a second invocation
returns true immediately, leaves the whole environment (in particular the
definition table) untouched, and leaves `was-code-modified` unchanged,
whatever the rewriting body would do. -/
theorem makeCodeHotReloadable_idempotent
    (rewriteBody : EvaluatorEnvironment → Bool → Bool × EvaluatorEnvironment × Bool)
    (env : EvaluatorEnvironment) (wasCodeModified : Bool)
    (h : lookupComptimeVar env.comptimeVars "modified-vars" = some true) :
    makeCodeHotReloadable rewriteBody env wasCodeModified =
      (true, env, wasCodeModified) ∧
    (makeCodeHotReloadable rewriteBody env wasCodeModified).2.1.definitions =
      env.definitions := by
  have h1 : getOrCreateComptimeVar env "modified-vars" false = (true, env) := by
    simp [getOrCreateComptimeVar, h]
  constructor <;> simp [makeCodeHotReloadable, h1]

/-- Witness for C7 at a concrete environment whose `modified-vars` flag is
already set. -/
theorem makeCodeHotReloadable_idempotent_witness :
    makeCodeHotReloadable (fun e w => (false, e, w))
        ⟨[("x", sampleDefinition)], [], [("modified-vars", true)], [], []⟩ false =
      (true, ⟨[("x", sampleDefinition)], [], [("modified-vars", true)], [], []⟩, false) ∧
    (makeCodeHotReloadable (fun e w => (false, e, w))
        ⟨[("x", sampleDefinition)], [], [("modified-vars", true)], [], []⟩ false).2.1.definitions =
      (⟨[("x", sampleDefinition)], [], [("modified-vars", true)], [], []⟩ :
        EvaluatorEnvironment).definitions :=
  makeCodeHotReloadable_idempotent (fun e w => (false, e, w))
    ⟨[("x", sampleDefinition)], [], [("modified-vars", true)], [], []⟩ false (by rfl)

/-- C8: MakeContextUniqueSymbolName is deterministic given stable context: two
runs whose contexts agree on `definitionName`'s text and on the context-local
counter produce the same symbol name and the same advanced counter, whatever
the rest of the environment, context, or token provenance (no
address-derived input exists). -/
theorem MakeContextUniqueSymbolName_deterministic
    (env1 env2 : EvaluatorEnvironment) (ctx1 ctx2 : EvaluatorContext)
    (namePrefix : String)
    (hname : ctx1.definitionName.contents = ctx2.definitionName.contents)
    (hcounter : ctx1.uniqueSymbolCounter = ctx2.uniqueSymbolCounter) :
    (MakeContextUniqueSymbolName env1 ctx1 namePrefix).1.contents =
      (MakeContextUniqueSymbolName env2 ctx2 namePrefix).1.contents ∧
    (MakeContextUniqueSymbolName env1 ctx1 namePrefix).2 =
      (MakeContextUniqueSymbolName env2 ctx2 namePrefix).2 := by
  constructor <;> simp [MakeContextUniqueSymbolName, hname, hcounter]

/-- Witness for C8: two runs in different environments, scopes, source files
and token positions, agreeing only on the definition name text and the
counter, generate the same symbol. -/
theorem MakeContextUniqueSymbolName_deterministic_witness :
    (MakeContextUniqueSymbolName emptyEnvironment
        ⟨EvaluatorScope.Module, ⟨TokenType.Symbol, "my-func", "a.cake", 3, 2, 9⟩, true, 5⟩
        "tmp").1.contents =
      (MakeContextUniqueSymbolName
        ⟨[("x", sampleDefinition)], [], [], [], []⟩
        ⟨EvaluatorScope.Body, ⟨TokenType.Symbol, "my-func", "b.cake", 44, 0, 7⟩, false, 5⟩
        "tmp").1.contents ∧
    (MakeContextUniqueSymbolName emptyEnvironment
        ⟨EvaluatorScope.Module, ⟨TokenType.Symbol, "my-func", "a.cake", 3, 2, 9⟩, true, 5⟩
        "tmp").2 =
      (MakeContextUniqueSymbolName
        ⟨[("x", sampleDefinition)], [], [], [], []⟩
        ⟨EvaluatorScope.Body, ⟨TokenType.Symbol, "my-func", "b.cake", 44, 0, 7⟩, false, 5⟩
        "tmp").2 :=
  MakeContextUniqueSymbolName_deterministic emptyEnvironment
    ⟨[("x", sampleDefinition)], [], [], [], []⟩
    ⟨EvaluatorScope.Module, ⟨TokenType.Symbol, "my-func", "a.cake", 3, 2, 9⟩, true, 5⟩
    ⟨EvaluatorScope.Body, ⟨TokenType.Symbol, "my-func", "b.cake", 44, 0, 7⟩, false, 5⟩
    "tmp" rfl rfl

/-- When no form in the list fails fatally, the sibling loop returns exactly
the number of recoverably failing forms and blames exactly those forms. -/
theorem evaluateGenerateAll_counts {α : Type} (evalOne : α → EvalOutcome)
    (forms : List α)
    (h : ∀ f ∈ forms, evalOne f ≠ EvalOutcome.fatalEnvironmentError) :
    EvaluateGenerateAll_Recursive evalOne forms =
      ((forms.filter fun f => isRecoverableError (evalOne f)).length,
       forms.filter fun f => isRecoverableError (evalOne f)) := by
  induction forms with
  | nil => rfl
  | cons f rest ih =>
    have hf := h f (by simp)
    have hrest : ∀ g ∈ rest, evalOne g ≠ EvalOutcome.fatalEnvironmentError :=
      fun g hg => h g (by simp [hg])
    cases he : evalOne f with
    | success =>
      simp [EvaluateGenerateAll_Recursive, he, ih hrest, isRecoverableError,
        List.filter_cons]
    | recoverableError k =>
      simp [EvaluateGenerateAll_Recursive, he, ih hrest, isRecoverableError,
        List.filter_cons]
    | fatalEnvironmentError => exact absurd he hf

/-- A fatal outcome halts the pass: the result does not depend on the forms
after the fatal one. -/
theorem evaluateGenerateAll_fatal_stops {α : Type} (evalOne : α → EvalOutcome)
    (pre post : List α) (fatalForm : α)
    (hpre : ∀ f ∈ pre, evalOne f ≠ EvalOutcome.fatalEnvironmentError)
    (hfatal : evalOne fatalForm = EvalOutcome.fatalEnvironmentError) :
    EvaluateGenerateAll_Recursive evalOne (pre ++ fatalForm :: post) =
      EvaluateGenerateAll_Recursive evalOne (pre ++ [fatalForm]) := by
  induction pre with
  | nil => simp [EvaluateGenerateAll_Recursive, hfatal]
  | cons f rest ih =>
    have hf := hpre f (by simp)
    have hrest : ∀ g ∈ rest, evalOne g ≠ EvalOutcome.fatalEnvironmentError :=
      fun g hg => hpre g (by simp [hg])
    cases he : evalOne f with
    | success => simp [EvaluateGenerateAll_Recursive, he, ih hrest]
    | recoverableError k => simp [EvaluateGenerateAll_Recursive, he, ih hrest]
    | fatalEnvironmentError => exact absurd he hf

/-- The fuelled digit renderer never returns an empty list when the
accumulator is nonempty. -/
theorem natDecimalCharsAux_ne_nil (fuel n : Nat) (acc : List Char)
    (h : acc ≠ []) : natDecimalCharsAux fuel n acc ≠ [] := by
  induction fuel generalizing n acc with
  | zero => exact h
  | succ f ih =>
    simp only [natDecimalCharsAux]
    split
    · simp
    · exact ih _ _ (by simp)

/-- natDecimalChars is never empty (every `%d` rendering has a digit). -/
theorem natDecimalChars_ne_nil (n : Nat) : natDecimalChars n ≠ [] := by
  simp only [natDecimalChars, natDecimalCharsAux]
  split
  · simp
  · exact natDecimalCharsAux_ne_nil _ _ _ (by simp)

/-- The character emitted for a single digit value is a decimal digit
character. -/
theorem digitChar_isDigit (k : Nat) (h : k < 10) :
    (Char.ofNat (48 + k)).isDigit = true := by
  interval_cases k <;> decide

/-- All characters produced by the fuelled renderer are digits, provided the
accumulator already holds only digits. -/
theorem natDecimalCharsAux_digits (fuel n : Nat) (acc : List Char)
    (h : ∀ c ∈ acc, c.isDigit = true) :
    ∀ c ∈ natDecimalCharsAux fuel n acc, c.isDigit = true := by
  induction fuel generalizing n acc with
  | zero => exact h
  | succ f ih =>
    simp only [natDecimalCharsAux]
    split
    · intro c hc
      rcases List.mem_cons.mp hc with rfl | hc2
      · exact digitChar_isDigit _ (Nat.mod_lt n (by decide))
      · exact h c hc2
    · refine ih _ _ ?_
      intro c hc
      rcases List.mem_cons.mp hc with rfl | hc2
      · exact digitChar_isDigit _ (Nat.mod_lt n (by decide))
      · exact h c hc2

/-- Every character of a `%d` rendering is a decimal digit. -/
theorem natDecimalChars_digits (n : Nat) :
    ∀ c ∈ natDecimalChars n, c.isDigit = true := by
  simp only [natDecimalChars]
  exact natDecimalCharsAux_digits _ _ _ (by simp)

/-- `[^:]+` consumes exactly a colon-free prefix up to the next colon. -/
theorem spanNonColon_append (l r : List Char) (hl : ∀ c ∈ l, c ≠ ':') :
    spanNonColon (l ++ ':' :: r) = (l, ':' :: r) := by
  induction l with
  | nil => simp [spanNonColon]
  | cons c cs ih =>
    have hc : c ≠ ':' := hl c (by simp)
    have hcs : ∀ x ∈ cs, x ≠ ':' := fun x hx => hl x (by simp [hx])
    simp [spanNonColon, hc, ih hcs]

/-- `\d+` consumes exactly an all-digit prefix up to the next colon. -/
theorem spanDigits_append (l r : List Char) (hl : ∀ c ∈ l, c.isDigit = true) :
    spanDigits (l ++ ':' :: r) = (l, ':' :: r) := by
  induction l with
  | nil => simp [spanDigits, (by decide : (':' : Char).isDigit = false)]
  | cons c cs ih =>
    have hc : c.isDigit = true := hl c (by simp)
    have hcs : ∀ x ∈ cs, x.isDigit = true := fun x hx => hl x (by simp [hx])
    simp [spanDigits, hc, ih hcs]

/-- Dropping a literal prefix from itself-plus-rest yields the rest. -/
theorem dropLiteral_self (l r : List Char) : dropLiteral l (l ++ r) = some r := by
  induction l with
  | nil => rfl
  | cons c cs ih => simp [dropLiteral, ih]

/-- The severity matcher accepts `error: `. -/
theorem stripSeverityKeyword_error (msg : List Char) :
    stripSeverityKeyword (errorKeyword ++ msg) = some msg := by
  simp [stripSeverityKeyword, dropLiteral_self]

/-- The severity matcher accepts `note: `. -/
theorem stripSeverityKeyword_note (msg : List Char) :
    stripSeverityKeyword (noteKeyword ++ msg) = some msg := by
  have h1 : dropLiteral errorKeyword (noteKeyword ++ msg) = none := rfl
  simp [stripSeverityKeyword, h1, dropLiteral_self]

/-- Any line of the shape `file:line:col: <severity> message` (colon-free
nonempty file, nonempty digit runs, single-line message) matches the
diagnostic regex. -/
theorem matches_built_line (src d1 d2 kw msg : List Char)
    (hsrc_ne : src ≠ []) (hsrc : ∀ c ∈ src, c ≠ ':')
    (hd1_ne : d1 ≠ []) (hd1 : ∀ c ∈ d1, c.isDigit = true)
    (hd2_ne : d2 ≠ []) (hd2 : ∀ c ∈ d2, c.isDigit = true)
    (hkw : stripSeverityKeyword (kw ++ msg) = some msg)
    (hmsg : ∀ c ∈ msg, c ≠ '\n') :
    matchesDiagnosticLineChars
      (src ++ ':' :: (d1 ++ ':' :: (d2 ++ ':' :: ' ' :: (kw ++ msg)))) = true := by
  obtain ⟨c0, src2, rfl⟩ := List.exists_cons_of_ne_nil hsrc_ne
  obtain ⟨e0, d12, rfl⟩ := List.exists_cons_of_ne_nil hd1_ne
  obtain ⟨f0, d22, rfl⟩ := List.exists_cons_of_ne_nil hd2_ne
  simp only [matchesDiagnosticLineChars, spanNonColon_append _ _ hsrc,
    spanDigits_append _ _ hd1, spanDigits_append _ _ hd2, hkw]
  exact List.all_eq_true.mpr fun c hc => by simpa using hmsg c hc

/-- Marking a name required does not change which names are defined. -/
theorem isDefinedIn_markRequired (defs : List (String × ObjectDefinition))
    (name : String) (required : Bool) (m : String) :
    isDefinedIn (markRequired defs name required) m = isDefinedIn defs m := by
  induction defs with
  | nil => rfl
  | cons p rest ih =>
    obtain ⟨n, d⟩ := p
    cases hc : n == name <;> simp [markRequired, hc, isDefinedIn, ih]

/-- Marking a name required never clears another requirement. -/
theorem requiredIn_markRequired_of (defs : List (String × ObjectDefinition))
    (name : String) (required : Bool) (m : String)
    (h : requiredIn defs m = true) :
    requiredIn (markRequired defs name required) m = true := by
  induction defs with
  | nil => simp [requiredIn] at h
  | cons p rest ih =>
    obtain ⟨n, d⟩ := p
    simp only [requiredIn, Bool.or_eq_true, Bool.and_eq_true] at h
    rcases h with ⟨h1, h2⟩ | h3
    · cases hc : n == name <;> simp [markRequired, hc, requiredIn, h1, h2]
    · cases hc : n == name <;> simp [markRequired, hc, requiredIn, ih h3]

/-- Marking a defined name required makes it required. -/
theorem requiredIn_markRequired_self (defs : List (String × ObjectDefinition))
    (t : String) (h : isDefinedIn defs t = true) :
    requiredIn (markRequired defs t true) t = true := by
  induction defs with
  | nil => simp [isDefinedIn] at h
  | cons p rest ih =>
    obtain ⟨n, d⟩ := p
    simp only [isDefinedIn, Bool.or_eq_true] at h
    rcases h with h1 | h2
    · simp [markRequired, h1, requiredIn]
    · cases hc : n == t <;> simp [markRequired, hc, requiredIn, ih h2]

/-- The reference sweep keeps exactly the entries whose names are undefined,
in order. -/
theorem resolvePassGo_refs (refs : List (String × List Reference))
    (defs : List (String × ObjectDefinition)) :
    (resolvePassGo refs defs).1 =
      refs.filter fun p => !(isDefinedIn defs p.1) := by
  induction refs generalizing defs with
  | nil => simp [resolvePassGo]
  | cons p rest ih =>
    obtain ⟨name, rs⟩ := p
    cases h : isDefinedIn defs name with
    | false => simp [resolvePassGo, h, ih, List.filter_cons]
    | true =>
      have hcong :
          (rest.filter fun q =>
            !(isDefinedIn (markRequired defs name (rs.any fun r => r.isRequired)) q.1)) =
            rest.filter fun q => !(isDefinedIn defs q.1) :=
        List.filter_congr fun q _ => by rw [isDefinedIn_markRequired]
      simp [resolvePassGo, h, ih, hcong, List.filter_cons]

/-- The reference sweep does not change which names are defined. -/
theorem resolvePassGo_definedIn (refs : List (String × List Reference))
    (defs : List (String × ObjectDefinition)) (m : String) :
    isDefinedIn (resolvePassGo refs defs).2.1 m = isDefinedIn defs m := by
  induction refs generalizing defs with
  | nil => simp [resolvePassGo]
  | cons p rest ih =>
    obtain ⟨name, rs⟩ := p
    cases h : isDefinedIn defs name
    · simp [resolvePassGo, h, ih]
    · simp [resolvePassGo, h, ih, isDefinedIn_markRequired]

/-- The reference sweep never clears a requirement. -/
theorem resolvePassGo_required_mono (refs : List (String × List Reference))
    (defs : List (String × ObjectDefinition)) (m : String)
    (h : requiredIn defs m = true) :
    requiredIn (resolvePassGo refs defs).2.1 m = true := by
  induction refs generalizing defs with
  | nil => simpa [resolvePassGo] using h
  | cons p rest ih =>
    obtain ⟨name, rs⟩ := p
    cases hc : isDefinedIn defs name
    · simp only [resolvePassGo, hc]
      simpa using ih defs h
    · simp only [resolvePassGo, hc]
      simpa using ih _ (requiredIn_markRequired_of defs name _ m h)

/-- Resolving a pending reference entry with a required referring site marks
the (defined) target required. -/
theorem resolvePassGo_marks (refs : List (String × List Reference))
    (defs : List (String × ObjectDefinition)) (t : String) (rs : List Reference)
    (hmem : (t, rs) ∈ refs) (hany : (rs.any fun r => r.isRequired) = true)
    (hdef : isDefinedIn defs t = true) :
    requiredIn (resolvePassGo refs defs).2.1 t = true := by
  induction refs generalizing defs with
  | nil => simp at hmem
  | cons p rest ih =>
    obtain ⟨name, qs⟩ := p
    rcases List.mem_cons.mp hmem with heq | hmem2
    · cases heq
      simp only [resolvePassGo, hdef, if_true]
      rw [hany]
      simpa using resolvePassGo_required_mono rest _ t
        (requiredIn_markRequired_self defs t hdef)
    · cases hc : isDefinedIn defs name
      · simp only [resolvePassGo, hc]
        simpa using ih defs hmem2 hdef
      · simp only [resolvePassGo, hc]
        simpa using ih _ hmem2 (by rw [isDefinedIn_markRequired]; exact hdef)

/-- When nothing is resolvable, the reference sweep is the identity and makes
no progress. -/
theorem resolvePassGo_id (refs : List (String × List Reference))
    (defs : List (String × ObjectDefinition))
    (h : ∀ p ∈ refs, isDefinedIn defs p.1 = false) :
    resolvePassGo refs defs = (refs, defs, false) := by
  induction refs with
  | nil => rfl
  | cons p rest ih =>
    obtain ⟨name, rs⟩ := p
    have h1 : isDefinedIn defs name = false := h (name, rs) (by simp)
    have h2 : ∀ q ∈ rest, isDefinedIn defs q.1 = false :=
      fun q hq => h q (by simp [hq])
    simp [resolvePassGo, h1, ih h2]

/-- The build sweep does not change which names are defined. -/
theorem buildSweep_definedIn (defs : List (String × ObjectDefinition)) (m : String) :
    isDefinedIn (buildSweep defs).1 m = isDefinedIn defs m := by
  induction defs with
  | nil => rfl
  | cons p rest ih =>
    obtain ⟨name, d⟩ := p
    cases hc : d.isRequired && d.isComptime && !d.buildAttempted <;>
      simp [buildSweep, hc, isDefinedIn, ih]

/-- The build sweep changes no `isRequired` flag. -/
theorem buildSweep_requiredIn (defs : List (String × ObjectDefinition)) (m : String) :
    requiredIn (buildSweep defs).1 m = requiredIn defs m := by
  induction defs with
  | nil => rfl
  | cons p rest ih =>
    obtain ⟨name, d⟩ := p
    cases hc : d.isRequired && d.isComptime && !d.buildAttempted <;>
      simp [buildSweep, hc, requiredIn, ih]

/-- After a build sweep, every required compile-time definition has had a
build attempted. -/
theorem buildSweep_post (defs : List (String × ObjectDefinition)) :
    ∀ p ∈ (buildSweep defs).1, p.2.isRequired = true → p.2.isComptime = true →
      p.2.buildAttempted = true := by
  induction defs with
  | nil => simp [buildSweep]
  | cons q rest ih =>
    obtain ⟨name, d⟩ := q
    intro p hp hreq hcomp
    cases hc : d.isRequired && d.isComptime && !d.buildAttempted
    · simp only [buildSweep, hc] at hp
      simp only [Bool.false_eq_true, if_false, List.mem_cons] at hp
      rcases hp with rfl | hp2
      · simp only at hreq hcomp
        simp [hreq, hcomp] at hc
        simpa using hc
      · exact ih p hp2 hreq hcomp
    · simp only [buildSweep, hc, if_true, List.mem_cons] at hp
      rcases hp with rfl | hp2
      · rfl
      · exact ih p hp2 hreq hcomp

/-- When every required compile-time definition is already attempted, the
build sweep is the identity, makes no progress and records no error. -/
theorem buildSweep_id (defs : List (String × ObjectDefinition))
    (h : ∀ p ∈ defs, p.2.isRequired = true → p.2.isComptime = true →
      p.2.buildAttempted = true) :
    buildSweep defs = (defs, false, []) := by
  induction defs with
  | nil => rfl
  | cons q rest ih =>
    obtain ⟨name, d⟩ := q
    have h1 := h (name, d) (by simp)
    have h2 : ∀ p ∈ rest, p.2.isRequired = true → p.2.isComptime = true →
        p.2.buildAttempted = true := fun p hp => h p (by simp [hp])
    have hc : (d.isRequired && d.isComptime && !d.buildAttempted) = false := by
      cases hr : d.isRequired
      · simp [hr]
      · cases hco : d.isComptime
        · simp [hr, hco]
        · have hb : d.buildAttempted = true := h1 hr hco
          simp [hr, hco, hb]
    simp [buildSweep, hc, ih h2]

/-- One resolver round keeps exactly the unresolved references, in order. -/
theorem resolvePass_refs (env : EvaluatorEnvironment) :
    (resolvePass env).1.references =
      env.references.filter fun p => !(isDefinedIn env.definitions p.1) := by
  simp [resolvePass, resolvePassGo_refs]

/-- One resolver round does not change which names are defined. -/
theorem resolvePass_definedIn (env : EvaluatorEnvironment) (m : String) :
    isDefinedIn (resolvePass env).1.definitions m = isDefinedIn env.definitions m := by
  simp [resolvePass, buildSweep_definedIn, resolvePassGo_definedIn]

/-- One resolver round does not touch the unknown-symbol error list. -/
theorem resolvePass_unknownErrors (env : EvaluatorEnvironment) :
    (resolvePass env).1.unknownSymbolErrors = env.unknownSymbolErrors := by
  simp [resolvePass]

/-- After one resolver round, every required compile-time definition has had a
build attempted. -/
theorem resolvePass_post (env : EvaluatorEnvironment) :
    ∀ p ∈ (resolvePass env).1.definitions, p.2.isRequired = true →
      p.2.isComptime = true → p.2.buildAttempted = true := by
  have hdefs : (resolvePass env).1.definitions =
      (buildSweep (resolvePassGo env.references env.definitions).2.1).1 := by
    simp [resolvePass]
  rw [hdefs]
  exact buildSweep_post _

/-- One resolver round never clears a requirement. -/
theorem resolvePass_required_mono (env : EvaluatorEnvironment) (m : String)
    (h : requiredIn env.definitions m = true) :
    requiredIn (resolvePass env).1.definitions m = true := by
  have hdefs : (resolvePass env).1.definitions =
      (buildSweep (resolvePassGo env.references env.definitions).2.1).1 := by
    simp [resolvePass]
  rw [hdefs, buildSweep_requiredIn]
  exact resolvePassGo_required_mono _ _ _ h

/-- One resolver round marks a defined target of a required pending reference
as required. -/
theorem resolvePass_marks (env : EvaluatorEnvironment) (t : String)
    (rs : List Reference) (hmem : (t, rs) ∈ env.references)
    (hany : (rs.any fun r => r.isRequired) = true)
    (hdef : isDefinedIn env.definitions t = true) :
    requiredIn (resolvePass env).1.definitions t = true := by
  have hdefs : (resolvePass env).1.definitions =
      (buildSweep (resolvePassGo env.references env.definitions).2.1).1 := by
    simp [resolvePass]
  rw [hdefs, buildSweep_requiredIn]
  exact resolvePassGo_marks _ _ _ _ hmem hany hdef

/-- After one resolver round the state is a fixed point: a second round
changes nothing and reports no progress. -/
theorem resolvePass_stuck (env : EvaluatorEnvironment) :
    resolvePass ((resolvePass env).1) = ((resolvePass env).1, false) := by
  have hrefs : ∀ p ∈ (resolvePass env).1.references,
      isDefinedIn (resolvePass env).1.definitions p.1 = false := by
    intro p hp
    rw [resolvePass_refs] at hp
    rw [resolvePass_definedIn]
    simpa using (List.mem_filter.mp hp).2
  have hpost := resolvePass_post env
  generalize (resolvePass env).1 = e1 at hrefs hpost ⊢
  have hgo := resolvePassGo_id e1.references e1.definitions hrefs
  have hsweep := buildSweep_id e1.definitions hpost
  simp only [resolvePass, hgo, hsweep, List.append_nil, Bool.or_self]

/-- A stuck environment is a fixed point of the fuelled loop. -/
theorem resolveLoopFuel_stuck (fuel : Nat) (env : EvaluatorEnvironment)
    (h : resolvePass env = (env, false)) :
    resolveLoopFuel fuel env = env := by
  cases fuel with
  | zero => rfl
  | succ n => simp [resolveLoopFuel, h]

/-- With any positive fuel, the loop computes exactly the single-round result
(in this model one round already reaches the fixed point). -/
theorem resolveLoopFuel_succ (fuel : Nat) (env : EvaluatorEnvironment) :
    resolveLoopFuel (fuel + 1) env = (resolvePass env).1 := by
  cases hp : (resolvePass env).2
  · simp [resolveLoopFuel, hp]
  · simp only [resolveLoopFuel, hp, if_true]
    exact resolveLoopFuel_stuck fuel _ (resolvePass_stuck env)

/-- The fuel EvaluateResolveReferences passes in suffices. -/
theorem evaluateResolve_envResolved (env : EvaluatorEnvironment) :
    resolveLoopFuel (env.references.length + env.definitions.length + 2) env =
      (resolvePass env).1 := by
  have h : env.references.length + env.definitions.length + 2 =
      (env.references.length + env.definitions.length + 1) + 1 := rfl
  rw [h, resolveLoopFuel_succ]

/-- Nothing survives the unresolved filter exactly when every pending
reference names a defined symbol. -/
theorem filter_undefined_eq_nil_iff (refs : List (String × List Reference))
    (defs : List (String × ObjectDefinition)) :
    (refs.filter fun p => !(isDefinedIn defs p.1)) = [] ↔
      refs.all (fun p => isDefinedIn defs p.1) = true := by
  induction refs with
  | nil => simp
  | cons p rest ih =>
    cases hc : isDefinedIn defs p.1 <;>
      simp [List.filter_cons, List.all_cons, hc, ih]

/-- Resolution never clears a requirement. -/
theorem evaluateResolve_required_mono (env : EvaluatorEnvironment) (m : String)
    (h : requiredIn env.definitions m = true) :
    requiredIn ((EvaluateResolveReferences env).1).definitions m = true := by
  have hpass := resolvePass_required_mono env m h
  simp only [EvaluateResolveReferences, evaluateResolve_envResolved]
  split
  · exact hpass
  · split
    · exact hpass
    · exact hpass

/-- Resolution marks the defined target of a required pending reference as
required. -/
theorem evaluateResolve_marks_required (env : EvaluatorEnvironment) (t : String)
    (rs : List Reference) (hmem : (t, rs) ∈ env.references)
    (hany : (rs.any fun r => r.isRequired) = true)
    (hdef : isDefinedIn env.definitions t = true) :
    requiredIn ((EvaluateResolveReferences env).1).definitions t = true := by
  have hpass := resolvePass_marks env t rs hmem hany hdef
  simp only [EvaluateResolveReferences, evaluateResolve_envResolved]
  split
  · exact hpass
  · split
    · exact hpass
    · exact hpass

/-- C1: EvaluateResolveReferences terminates at a fixed point where exactly
the unsatisfiable references remain; when every pending reference is
satisfiable the `references` registry ends empty, and otherwise, if any
leftover reference is required, exactly the unsatisfied names are appended to
the UnknownSymbolError report and the call fails — no unresolved reference is
silently dropped. -/
theorem EvaluateResolveReferences_fixed_point (env : EvaluatorEnvironment) :
    ((EvaluateResolveReferences env).1.references =
        env.references.filter fun p => !(isDefinedIn env.definitions p.1)) ∧
    ((EvaluateResolveReferences env).1.references = [] ↔
        env.references.all (fun p => isDefinedIn env.definitions p.1) = true) ∧
    ((EvaluateResolveReferences env).1.unknownSymbolErrors =
        env.unknownSymbolErrors ++
          (if (!(env.references.filter fun p => !(isDefinedIn env.definitions p.1)).isEmpty &&
                anyRequiredReference
                  (env.references.filter fun p => !(isDefinedIn env.definitions p.1)))
            then (env.references.filter fun p => !(isDefinedIn env.definitions p.1)).map
              Prod.fst
            else [])) ∧
    ((EvaluateResolveReferences env).2 =
        ((env.references.filter fun p => !(isDefinedIn env.definitions p.1)).isEmpty ||
          !anyRequiredReference
            (env.references.filter fun p => !(isDefinedIn env.definitions p.1)))) := by
  have hloop := evaluateResolve_envResolved env
  have hrefs := resolvePass_refs env
  have herrs := resolvePass_unknownErrors env
  have hiff := filter_undefined_eq_nil_iff env.references env.definitions
  by_cases hE : (env.references.filter fun p =>
      !(isDefinedIn env.definitions p.1)).isEmpty = true
  · refine ⟨?_, ?_, ?_, ?_⟩ <;>
      simp [EvaluateResolveReferences, hloop, hrefs, herrs, hE, hiff]
  · have hE2 : (env.references.filter fun p =>
        !(isDefinedIn env.definitions p.1)).isEmpty = false := by
      revert hE
      cases (env.references.filter fun p => !(isDefinedIn env.definitions p.1)).isEmpty <;>
        simp
    by_cases hR : anyRequiredReference
        (env.references.filter fun p => !(isDefinedIn env.definitions p.1)) = true
    · refine ⟨?_, ?_, ?_, ?_⟩ <;>
        simp [EvaluateResolveReferences, hloop, hrefs, herrs, hE2, hR, hiff]
    · have hR2 : anyRequiredReference
          (env.references.filter fun p => !(isDefinedIn env.definitions p.1)) = false := by
        revert hR
        cases anyRequiredReference
            (env.references.filter fun p => !(isDefinedIn env.definitions p.1)) <;>
          simp
      refine ⟨?_, ?_, ?_, ?_⟩ <;>
        simp [EvaluateResolveReferences, hloop, hrefs, herrs, hE2, hR2, hiff]

/-- Appending definitions keeps every existing requirement. -/
theorem requiredIn_append_left (defs l : List (String × ObjectDefinition))
    (m : String) (h : requiredIn defs m = true) :
    requiredIn (defs ++ l) m = true := by
  induction defs with
  | nil => simp [requiredIn] at h
  | cons p rest ih =>
    obtain ⟨n, d⟩ := p
    simp only [List.cons_append, requiredIn, Bool.or_eq_true] at h ⊢
    rcases h with h1 | h2
    · exact Or.inl h1
    · exact Or.inr (ih h2)

/-- Replacing an output changes no `isRequired` flag. -/
theorem requiredIn_setDefinitionOutput (defs : List (String × ObjectDefinition))
    (name : String) (out : GeneratorOutput) (m : String) :
    requiredIn (setDefinitionOutput defs name out) m = requiredIn defs m := by
  induction defs with
  | nil => rfl
  | cons p rest ih =>
    obtain ⟨n, d⟩ := p
    cases hc : n == name <;> simp [setDefinitionOutput, hc, requiredIn, ih]

/-- Every legal operation keeps every existing requirement. -/
theorem applyOp_required_mono (env : EvaluatorEnvironment) (op : EnvOp)
    (m : String) (h : requiredIn env.definitions m = true) :
    requiredIn (applyOp env op).definitions m = true := by
  cases op with
  | addDefinitionOp d =>
    show requiredIn (addObjectDefinition env d).definitions m = true
    unfold addObjectDefinition
    split
    · exact h
    · exact requiredIn_append_left _ _ _ h
  | addReferenceOp name r => exact h
  | resolveReferencesOp => exact evaluateResolve_required_mono env m h
  | replaceAndEvaluateOp name newTokens evalFn =>
    show requiredIn (match ReplaceAndEvaluateDefinition env name newTokens evalFn with
      | some envNext => envNext
      | none => env).definitions m = true
    cases hl : lookupDefinition env.definitions name
    · simp only [ReplaceAndEvaluateDefinition, hl]
      exact h
    · simp only [ReplaceAndEvaluateDefinition, hl]
      simpa [requiredIn_setDefinitionOutput] using h

/-- C4: `isRequired` is monotonic — under any sequence of legal operations
(evaluation-time definition/reference registration, reference resolution,
hook-driven redefinition) a definition whose `isRequired` flag is true keeps
it true, so the required set only grows. -/
theorem isRequired_monotonic (env : EvaluatorEnvironment) (ops : List EnvOp)
    (name : String) (h : requiredIn env.definitions name = true) :
    requiredIn (applyOps env ops).definitions name = true := by
  induction ops generalizing env with
  | nil => exact h
  | cons op rest ih => exact ih _ (applyOp_required_mono env op name h)

/-- Witness for C4: a required definition stays required across resolution, a
redefinition of it, and an unrelated registration attempt. -/
theorem isRequired_monotonic_witness :
    requiredIn (applyOps ⟨[("f", sampleRequiredDefinition)], [], [], [], []⟩
      [EnvOp.resolveReferencesOp,
       EnvOp.replaceAndEvaluateOp "f" [] (fun _ => (emptyGeneratorOutput, [])),
       EnvOp.addDefinitionOp sampleDefinition]).definitions "f" = true :=
  isRequired_monotonic ⟨[("f", sampleRequiredDefinition)], [], [], [], []⟩
    [EnvOp.resolveReferencesOp,
     EnvOp.replaceAndEvaluateOp "f" [] (fun _ => (emptyGeneratorOutput, [])),
     EnvOp.addDefinitionOp sampleDefinition] "f" (by decide)

/-- Replacing the output of the definition stored under `name` leaves it
looked-up under the same key, with only its output changed. -/
theorem lookupDefinition_setDefinitionOutput_self
    (defs : List (String × ObjectDefinition)) (name : String)
    (out : GeneratorOutput) (d : ObjectDefinition)
    (h : lookupDefinition defs name = some d) :
    lookupDefinition (setDefinitionOutput defs name out) name =
      some { d with output := some out } := by
  induction defs with
  | nil => simp [lookupDefinition] at h
  | cons p rest ih =>
    obtain ⟨n, d0⟩ := p
    cases hc : n == name
    · simp only [lookupDefinition, hc] at h
      simp only [Bool.false_eq_true, if_false] at h
      simp [setDefinitionOutput, hc, lookupDefinition, ih h]
    · simp only [lookupDefinition, hc, if_true, Option.some.injEq] at h
      subst h
      simp [setDefinitionOutput, hc, lookupDefinition]

/-- Replacing the output stored under `name` does not affect lookups of any
other name. -/
theorem lookupDefinition_setDefinitionOutput_other
    (defs : List (String × ObjectDefinition)) (name : String)
    (out : GeneratorOutput) (m : String) (hne : m ≠ name) :
    lookupDefinition (setDefinitionOutput defs name out) m =
      lookupDefinition defs m := by
  induction defs with
  | nil => rfl
  | cons p rest ih =>
    obtain ⟨n, d⟩ := p
    cases hc : n == name
    · cases hm : n == m <;>
        simp [setDefinitionOutput, lookupDefinition, hc, hm, ih]
    · have hn : n = name := by simpa using hc
      subst hn
      have hm : (n == m) = false := by
        simp only [beq_eq_false_iff_ne, ne_eq]
        exact fun hEq => hne hEq.symm
      simp [setDefinitionOutput, lookupDefinition, hm, ih]

/-- Replacing an output preserves the key sequence of the definition table. -/
theorem setDefinitionOutput_keys (defs : List (String × ObjectDefinition))
    (name : String) (out : GeneratorOutput) :
    (setDefinitionOutput defs name out).map Prod.fst = defs.map Prod.fst := by
  induction defs with
  | nil => rfl
  | cons p rest ih =>
    obtain ⟨n, d⟩ := p
    cases hc : n == name <;> simp [setDefinitionOutput, hc, ih]

/-- C5: ReplaceAndEvaluateDefinition fails when no definition named `name`
exists; on success it discards the existing definition's GeneratorOutput
(replacing it with the freshly evaluated one) while keeping the definition's
entry — its key, position and every other field — in the `definitions` table,
and every other entry is unchanged. -/
theorem ReplaceAndEvaluateDefinition_frame (env : EvaluatorEnvironment)
    (name : String) (newTokens : List Token)
    (evalFn : List Token → GeneratorOutput × List (String × Reference)) :
    (lookupDefinition env.definitions name = none →
      ReplaceAndEvaluateDefinition env name newTokens evalFn = none) ∧
    (∀ d, lookupDefinition env.definitions name = some d →
      ∃ envNext,
        ReplaceAndEvaluateDefinition env name newTokens evalFn = some envNext ∧
        lookupDefinition envNext.definitions name =
          some { d with output := some (evalFn newTokens).1 } ∧
        envNext.definitions.map Prod.fst = env.definitions.map Prod.fst ∧
        (∀ m, m ≠ name →
          lookupDefinition envNext.definitions m =
            lookupDefinition env.definitions m)) := by
  constructor
  · intro h
    simp [ReplaceAndEvaluateDefinition, h]
  · intro d h
    refine ⟨{ env with
        definitions := setDefinitionOutput env.definitions name (evalFn newTokens).1,
        references := ((evalFn newTokens).2).foldl
          (fun registry p => addReferenceToRegistry registry p.1 p.2)
          env.references },
      by simp [ReplaceAndEvaluateDefinition, h], ?_, ?_, ?_⟩
    · exact lookupDefinition_setDefinitionOutput_self _ _ _ _ h
    · exact setDefinitionOutput_keys _ _ _
    · intro m hm
      exact lookupDefinition_setDefinitionOutput_other _ _ _ _ hm

/-- Witness for C5: redefinition of a missing name fails; redefinition of an
existing one keeps its entry (output refreshed) and the other entries. -/
theorem ReplaceAndEvaluateDefinition_frame_witness :
    ReplaceAndEvaluateDefinition emptyEnvironment "missing" []
        (fun _ => (emptyGeneratorOutput, [])) = none ∧
    (∃ envNext,
      ReplaceAndEvaluateDefinition
          ⟨[("f", sampleDefinition), ("g", sampleRequiredDefinition)], [], [], [], []⟩
          "f" [] (fun _ => (emptyGeneratorOutput, [])) = some envNext ∧
      lookupDefinition envNext.definitions "f" =
        some { sampleDefinition with output := some emptyGeneratorOutput } ∧
      envNext.definitions.map Prod.fst =
        ([("f", sampleDefinition), ("g", sampleRequiredDefinition)] :
          List (String × ObjectDefinition)).map Prod.fst ∧
      (∀ m, m ≠ "f" →
        lookupDefinition envNext.definitions m =
          lookupDefinition
            ([("f", sampleDefinition), ("g", sampleRequiredDefinition)] :
              List (String × ObjectDefinition)) m)) :=
  ⟨(ReplaceAndEvaluateDefinition_frame emptyEnvironment "missing" []
      (fun _ => (emptyGeneratorOutput, []))).1 rfl,
   (ReplaceAndEvaluateDefinition_frame
      ⟨[("f", sampleDefinition), ("g", sampleRequiredDefinition)], [], [], [], []⟩
      "f" [] (fun _ => (emptyGeneratorOutput, []))).2 sampleDefinition rfl⟩

/-- C9: before any user token is evaluated, main registers the `<module>`
pseudo-definition — required, with an allocated GeneratorOutput — and
evaluates every top-level form under a context with scope Module,
isRequired true and definitionName `<module>`; hence any reference made at
top level is a required reference, and resolving it pulls its (defined)
target into the required closure. -/
theorem main_module_pseudo_definition_required (filename : String)
    (env : EvaluatorEnvironment) (targetName : String) (refs : List Reference)
    (blame : Option Token)
    (hmem : (targetName, refs) ∈ env.references)
    (href : referenceFromContext (mainModuleContext filename) blame ∈ refs)
    (hdef : isDefinedIn env.definitions targetName = true) :
    lookupDefinition (mainSetupEnvironment filename).definitions "<module>" =
      some (mainModuleDefinition filename) ∧
    (mainModuleDefinition filename).isRequired = true ∧
    (mainModuleDefinition filename).output = some emptyGeneratorOutput ∧
    (mainModuleContext filename).scope = EvaluatorScope.Module ∧
    (mainModuleContext filename).isRequired = true ∧
    (mainModuleContext filename).definitionName.contents = "<module>" ∧
    (referenceFromContext (mainModuleContext filename) blame).isRequired = true ∧
    requiredIn ((EvaluateResolveReferences env).1).definitions targetName = true := by
  have hany : (refs.any fun r => r.isRequired) = true :=
    List.any_eq_true.mpr ⟨_, href, rfl⟩
  exact ⟨rfl, rfl, rfl, rfl, rfl, rfl, rfl,
    evaluateResolve_marks_required env targetName refs hmem hany hdef⟩

/-- Witness for C9 at a concrete file name and a concrete environment holding
one top-level reference to a defined symbol. -/
theorem main_module_pseudo_definition_required_witness :
    lookupDefinition (mainSetupEnvironment "test.cake").definitions "<module>" =
      some (mainModuleDefinition "test.cake") ∧
    (mainModuleDefinition "test.cake").isRequired = true ∧
    (mainModuleDefinition "test.cake").output = some emptyGeneratorOutput ∧
    (mainModuleContext "test.cake").scope = EvaluatorScope.Module ∧
    (mainModuleContext "test.cake").isRequired = true ∧
    (mainModuleContext "test.cake").definitionName.contents = "<module>" ∧
    (referenceFromContext (mainModuleContext "test.cake") none).isRequired = true ∧
    requiredIn ((EvaluateResolveReferences
      ⟨[("f", sampleDefinition)],
       [("f", [referenceFromContext (mainModuleContext "test.cake") none])],
       [], [], []⟩).1).definitions "f" = true :=
  main_module_pseudo_definition_required "test.cake"
    ⟨[("f", sampleDefinition)],
     [("f", [referenceFromContext (mainModuleContext "test.cake") none])],
     [], [], []⟩
    "f" [referenceFromContext (mainModuleContext "test.cake") none] none
    (by decide) (by decide) (by decide)

/-- C3: on recoverable errors (invalid scope, illegal form, bad arity) the
evaluator emits one blamed error per failing form, increments the returned
error count and continues with the next sibling, so a pass over forms with
several independent errors reports all of them (count and blamed forms equal
the recoverably-failing forms); only a FatalEnvironmentError terminates the
pass, making the result independent of the forms after it. -/
theorem evaluator_continues_after_recoverable_errors {α : Type}
    (evalOne : α → EvalOutcome) (forms pre post : List α) (fatalForm : α)
    (hforms : ∀ f ∈ forms, evalOne f ≠ EvalOutcome.fatalEnvironmentError)
    (hpre : ∀ f ∈ pre, evalOne f ≠ EvalOutcome.fatalEnvironmentError)
    (hfatal : evalOne fatalForm = EvalOutcome.fatalEnvironmentError) :
    ((EvaluateGenerateAll_Recursive evalOne forms).1 =
        (forms.filter fun f => isRecoverableError (evalOne f)).length ∧
      (EvaluateGenerateAll_Recursive evalOne forms).2 =
        forms.filter fun f => isRecoverableError (evalOne f)) ∧
    EvaluateGenerateAll_Recursive evalOne (pre ++ fatalForm :: post) =
      EvaluateGenerateAll_Recursive evalOne (pre ++ [fatalForm]) := by
  refine ⟨⟨?_, ?_⟩, evaluateGenerateAll_fatal_stops evalOne pre post fatalForm hpre hfatal⟩ <;>
    rw [evaluateGenerateAll_counts evalOne forms hforms]

/-- Witness for C3: a pass over two independent recoverable errors reports
both, and a fatal form makes the result independent of what follows it. -/
theorem evaluator_continues_after_recoverable_errors_witness :
    ((EvaluateGenerateAll_Recursive sampleEvalOutcome [0, 1, 3, 4]).1 =
        ([0, 1, 3, 4].filter fun f => isRecoverableError (sampleEvalOutcome f)).length ∧
      (EvaluateGenerateAll_Recursive sampleEvalOutcome [0, 1, 3, 4]).2 =
        [0, 1, 3, 4].filter fun f => isRecoverableError (sampleEvalOutcome f)) ∧
    EvaluateGenerateAll_Recursive sampleEvalOutcome ([0, 1] ++ 2 :: [9, 10]) =
      EvaluateGenerateAll_Recursive sampleEvalOutcome ([0, 1] ++ [2]) :=
  evaluator_continues_after_recoverable_errors sampleEvalOutcome
    [0, 1, 3, 4] [0, 1] [9, 10] 2 (by decide) (by decide) (by decide)

/-- C2 counterexample: the tokenizer error reported by main, emitted as
`printf("%s:%d: error: %s\n", filename, lineNumber, error)`, carries no
column field, so it fails the claimed regex
`^([^:]+):(\d+):(\d+): (error|note): (.*)$`. -/
theorem tokenizer_error_line_breaks_regex :
    matchesDiagnosticRegex
      (mainTokenizerErrorLine "test.cake" 3 "Unexpected character") = false := by
  decide

/-- C2 (amended): every token-blamed diagnostic line — ErrorAtToken,
NoteAtToken and their f-variants, which emit the same shape with a formatted
message — matches `^([^:]+):(\d+):(\d+): (error|note): (.*)$` with a 1-based
column, provided the blamed token's source filename is nonempty and
colon-free and the message is a single line; the tokenizer error printed by
main uses `file:line: error: message` with no column and is exempt. -/
theorem token_blamed_diagnostics_match_regex (token : Token) (message : String)
    (hsrc_ne : token.source.data ≠ [])
    (hsrc : ∀ c ∈ token.source.data, c ≠ ':')
    (hmsg : ∀ c ∈ message.data, c ≠ '\n') :
    matchesDiagnosticRegex (errorAtTokenLine token message) = true ∧
    matchesDiagnosticRegex (noteAtTokenLine token message) = true := by
  constructor
  · exact matches_built_line _ _ _ _ _ hsrc_ne hsrc
      (natDecimalChars_ne_nil _) (natDecimalChars_digits _)
      (natDecimalChars_ne_nil _) (natDecimalChars_digits _)
      (stripSeverityKeyword_error _) hmsg
  · exact matches_built_line _ _ _ _ _ hsrc_ne hsrc
      (natDecimalChars_ne_nil _) (natDecimalChars_digits _)
      (natDecimalChars_ne_nil _) (natDecimalChars_digits _)
      (stripSeverityKeyword_note _) hmsg

/-- Witness for C2 at a concrete token and message. -/
theorem token_blamed_diagnostics_match_regex_witness :
    matchesDiagnosticRegex
      (errorAtTokenLine ⟨TokenType.Symbol, "f", "test.cake", 7, 4, 5⟩ "bad thing") =
      true ∧
    matchesDiagnosticRegex
      (noteAtTokenLine ⟨TokenType.Symbol, "f", "test.cake", 7, 4, 5⟩ "bad thing") =
      true :=
  token_blamed_diagnostics_match_regex
    ⟨TokenType.Symbol, "f", "test.cake", 7, 4, 5⟩ "bad thing"
    (by decide) (by decide) (by decide)

end Cakelisp
